import Mathlib

/-
Verification of the ShuffleFL data-redistribution scheduler
(repository: kd-data-sharing-hfl).

Shallow embedding of the data model and the operations of
src/user.py and src/device.py: devices are records of a dataset,
a parallel cluster-label array, a knowledge-distillation buffer,
a transferred-sample counter and resource attributes; the user-level
routines (shuffle_data, objective_function, total_latency_devices,
compute_staleness_factor, non_zero_self_column) are translated as
pure state transformers over lists of device records.

The repository snapshot mixes two revisions: user.py calls device
methods (remove_data, add_data, latency, data_imbalance) that the
shipped device.py does not define.  Those operations are modelled
from the specification, each marked in its doc comment.
-/

/-- A training sample: a feature payload identifier and a ground-truth
label.  Only the label (and the sample identity) matters for the
scheduler, so the image payload is abstracted to a natural number. -/
structure Sample where
  feat : Nat
  label : Nat
deriving DecidableEq, Repr

/-- Per-device state, as read and written by src/user.py: the ordered
dataset, the parallel cluster-label array, the per-device knowledge
distillation buffer, the transferred-samples counter, the per-device
transition matrix and the resource attributes from the device config. -/
structure DeviceState where
  dataset : List Sample
  clusters : List Nat
  kd_dataset : List Sample
  num_transferred_samples : Nat
  transition_matrix : List (List ℚ)
  uplink_rate : ℚ
  downlink_rate : ℚ
  compute : ℚ
deriving DecidableEq, Repr

/-- Default device used to model Python list indexing out of range in
total functions; the claims are evaluated on well-formed inputs. -/
def dummyDevice : DeviceState :=
  { dataset := [], clusters := [], kd_dataset := [],
    num_transferred_samples := 0, transition_matrix := [],
    uplink_rate := 1, downlink_rate := 1, compute := 1 }

instance : Inhabited DeviceState := ⟨dummyDevice⟩

/-- Modelled from the spec: config.py is not part of the sources; the
default dataset is cifar10 and the end-to-end scenario of the spec
fixes NUM_CLASSES = 10. -/
def NUM_CLASSES : Nat := 10

/-- Modelled from the spec: config.py is not part of the sources; the
code comment in objective_function (src/user.py line 204) states that
the std-correction factor is 10. -/
def STD_CORRECTION : ℚ := 10

/-- Number of surrogate clusters, math.floor(classes * shrinkage_ratio)
as in src/user.py. -/
def numClusters (classes : Nat) (shrinkage : ℚ) : Nat :=
  (⌊(classes : ℚ) * shrinkage⌋).toNat

/-- User-group state: the owned devices plus the scalar fields of the
User object in src/user.py that the translated routines touch. -/
structure UserState where
  devices : List DeviceState
  system_latencies : List ℚ
  data_imbalances : List ℝ
  adaptive_scaling_factor : ℚ
  shrinkage : ℚ

/-- np.bincount with a minlength argument: a vector of per-value counts
whose length is the larger of minlength and one past the largest value
(length minlength for an empty input), as used by src/device.py. -/
def bincount (minlength : Nat) (xs : List Nat) : List Nat :=
  let len := match xs with
    | [] => minlength
    | _ => max minlength (xs.foldl max 0 + 1)
  (List.range len).map (fun c => xs.count c)

/-- Device.label_distribution from src/device.py:
np.bincount(labels, minlength=NUM_CLASSES). -/
def labelDistribution (d : DeviceState) : List Nat :=
  bincount NUM_CLASSES (d.dataset.map Sample.label)

/-- Device.cluster_distribution from src/device.py:
np.bincount(self.clusters, minlength=5).  Note the hard-coded 5. -/
def clusterDistribution (d : DeviceState) : List Nat :=
  bincount 5 d.clusters

/-- The elementwise relative entropy used by scipy.special.rel_entr:
x * log (x / y) for positive x, and 0 for x = 0.  In every use below
y is at least x / 2, so the infinite branch of rel_entr never arises
and is not modelled. -/
noncomputable def relEntr (x y : ℝ) : ℝ :=
  if x ≤ 0 then 0 else x * Real.log (x / y)

/-- scipy.spatial.distance.jensenshannon with the default natural-log
base: normalize both inputs to unit mass, form the midpoint, add the
two relative-entropy sums, halve, and take the square root. -/
noncomputable def jensenshannon (p q : List ℝ) : ℝ :=
  let ps := p.sum
  let qs := q.sum
  let pn := p.map (fun a => a / ps)
  let qn := q.map (fun a => a / qs)
  let m := List.zipWith (fun a b => (a + b) / 2) pn qn
  Real.sqrt (((List.zipWith relEntr pn m).sum + (List.zipWith relEntr qn m).sum) / 2)

/-- Device.imbalance from src/device.py: 0 for an empty dataset, else
the Jensen-Shannon distance between the balanced distribution (average
count in every class) and the label distribution. -/
noncomputable def imbalance (d : DeviceState) : ℝ :=
  if d.dataset.length = 0 then 0
  else
    let distribution := (labelDistribution d).map (Nat.cast : Nat → ℝ)
    let nSamples := distribution.sum
    let nClasses := distribution.length
    let avg := nSamples / nClasses
    let balanced := List.replicate nClasses avg
    jensenshannon balanced distribution

/-- The random permutation drawn by datasets.Dataset.shuffle is
modelled as an explicit index order applied to the list. -/
def shuffleSelect (order : List Nat) (xs : List Sample) : List Sample :=
  order.filterMap (fun i => xs.get? i)

/-- Device.sample from src/device.py: shuffle the dataset with a fresh
random permutation, then select the first floor(percentage * size)
elements.  The permutation drawn by the library shuffle is the order
argument. -/
def sample (pct : ℚ) (order : List Nat) (d : DeviceState) : List Sample :=
  let amount := (⌊pct * (d.dataset.length : ℚ)⌋).toNat
  (shuffleSelect order d.dataset).take amount

/-- Removes the first n pairs carrying cluster label c, preserving the
order of the remaining pairs. -/
def removePairs (c : Nat) : Nat → List (Sample × Nat) → List (Sample × Nat)
  | _, [] => []
  | 0, l => l
  | n + 1, p :: l =>
      if p.2 = c then removePairs c n l else p :: removePairs c (n + 1) l

/-- Modelled from the spec: Device.remove_data is called by
src/user.py but absent from the shipped src/device.py.  Per section
4.4, it removes up to floor(percentage * available) samples of the
given cluster from the dataset, keeps the cluster-label array parallel,
increments the transferred-samples counter by the removed count, and
when the kd flag is set appends the removed samples to the per-device
knowledge-distillation buffer instead of returning them to a receiver.
The first matching samples are taken, a deterministic order.  Returns
the removed samples and the updated device. -/
def removeData (d : DeviceState) (c : Nat) (pct : ℚ) (toKd : Bool) :
    List Sample × DeviceState :=
  let paired := d.dataset.zip d.clusters
  let cand := paired.filter (fun p => p.2 = c)
  let amount := (⌊pct * (cand.length : ℚ)⌋).toNat
  let removed := (cand.take amount).map Prod.fst
  let remaining := removePairs c amount paired
  (removed,
    { d with
      dataset := remaining.map Prod.fst,
      clusters := remaining.map Prod.snd,
      kd_dataset := if toKd then d.kd_dataset ++ removed else d.kd_dataset,
      num_transferred_samples := d.num_transferred_samples + removed.length })

/-- Modelled from the spec: Device.add_data (section 4.4) appends the
received samples of cluster c to the dataset and the parallel
cluster-label array and increments the transferred-samples counter. -/
def addData (d : DeviceState) (samples : List Sample) (c : Nat) : DeviceState :=
  { d with
    dataset := d.dataset ++ samples,
    clusters := d.clusters ++ List.replicate samples.length c,
    num_transferred_samples := d.num_transferred_samples + samples.length }

/-- User.send_data from src/user.py: a self transfer routes the mass
into the knowledge-distillation buffer of the sender; otherwise the
sender removes the samples and the receiver appends them. -/
def sendData (devs : List DeviceState) (s r c : Nat) (pct : ℚ) :
    List DeviceState :=
  if s = r then
    devs.set s (removeData (devs.getD s dummyDevice) c pct true).2
  else
    let res := removeData (devs.getD s dummyDevice) c pct false
    let receiver := addData (devs.getD r dummyDevice) res.1 c
    (devs.set s res.2).set r receiver

/-- User.shuffle_data from src/user.py: every device sends, for every
cluster row of its transition matrix and every column, the designated
mass to the column device. -/
def shuffleData (devs : List DeviceState) (tms : List (List (List ℚ))) :
    List DeviceState :=
  tms.enum.foldl (fun ds p =>
    (List.range p.2.length).foldl (fun ds c =>
      (List.range (p.2.headD []).length).foldl (fun ds j =>
        sendData ds p.1 j c ((p.2.getD c []).getD j 0)) ds) ds) devs

/-- Modelled from the spec: Device.latency is called by
User.latency_devices in src/user.py but absent from the shipped
src/device.py.  Section 4.3 gives the per-device latency model:
communication time accumulates, for every off-diagonal transfer
between device pairs, mass over the uplink of the sender plus mass
over the downlink of the receiver, in both send and receive
directions, and computation time accumulates
epochs * dataset size * (1 / compute). -/
def deviceLatency (devs : List DeviceState) (i : Nat) (epochs : Nat) : ℚ :=
  let d := devs.getD i dummyDevice
  let comm :=
    (d.transition_matrix.enum.map (fun cr =>
      (devs.enum.map (fun q =>
        if i ≠ q.1 then
          (d.transition_matrix.getD cr.1 []).getD q.1 0 *
            (1 / d.uplink_rate + 1 / q.2.downlink_rate)
          + (q.2.transition_matrix.getD cr.1 []).getD i 0 *
            (1 / d.downlink_rate + 1 / q.2.uplink_rate)
        else 0)).sum)).sum
  comm + (epochs : ℚ) * (d.dataset.length : ℚ) * (1 / d.compute)

/-- User.latency_devices from src/user.py: the list of per-device
latencies of the group. -/
def latenciesOf (devs : List DeviceState) (epochs : Nat) : List ℚ :=
  (List.range devs.length).map (fun i => deviceLatency devs i epochs)

/-- np.std of a list of rationals: the square root of the mean squared
deviation from the mean (population standard deviation). -/
noncomputable def npStd (l : List ℚ) : ℝ :=
  let n : ℝ := (l.length : ℝ)
  let mean : ℝ := (l.map (fun v => (v : ℝ))).sum / n
  Real.sqrt ((l.map (fun v => ((v : ℝ) - mean) ^ 2)).sum / n)

/-- np.max of a list of rationals (the empty case never occurs in the
translated call sites; it is mapped to 0). -/
def npMaxQ : List ℚ → ℚ
  | [] => 0
  | h :: t => t.foldl max h

/-- np.max of a list of reals. -/
noncomputable def npMaxR : List ℝ → ℝ
  | [] => 0
  | h :: t => t.foldl max h

/-- np.reshape of the flat optimization vector into n transition
matrices of k rows and n columns, as in objective_function of
src/user.py. -/
def reshape3 (n k : Nat) (x : List ℚ) : List (List (List ℚ)) :=
  (List.range n).map (fun i =>
    (List.range k).map (fun c =>
      (List.range n).map (fun j => x.getD ((i * k + c) * n + j) 0)))

/-- The restore loop at the end of objective_function in src/user.py:
device by device, the dataset and the kd dataset are overwritten with
the snapshots taken before the tentative shuffle.  The other fields
keep their post-shuffle values. -/
def restoreDevices :
    List (List Sample) → List (List Sample) → List DeviceState → List DeviceState
  | ds :: dss, ks :: kss, dev :: devs =>
      { dev with dataset := ds, kd_dataset := ks } :: restoreDevices dss kss devs
  | _, _, devs => devs

/-- The devices of the group after the tentative shuffle performed
inside objective_function: counters reset to zero, then the candidate
matrices applied by the shuffling engine. -/
def tentativeDevices (u : UserState) (x : List ℚ) : List DeviceState :=
  shuffleData (u.devices.map (fun d => { d with num_transferred_samples := 0 }))
    (reshape3 u.devices.length (numClusters NUM_CLASSES u.shrinkage) x)

/-- objective_function from src/user.py, translated as a state
transformer: reshape the flat candidate, snapshot the datasets and kd
datasets, reset the counters, tentatively shuffle, measure latencies
and imbalances (writing them into the user state as the source does),
restore the snapshots, and return the weighted objective value
together with the post-evaluation state. -/
noncomputable def objectiveFunction (u : UserState) (x : List ℚ) : ℝ × UserState :=
  let n := u.devices.length
  let k := numClusters NUM_CLASSES u.shrinkage
  let tms := reshape3 n k x
  let currentDatasets := u.devices.map (fun d => d.dataset)
  let currentKdDatasets := u.devices.map (fun d => d.kd_dataset)
  let devs0 := u.devices.map (fun d => { d with num_transferred_samples := 0 })
  let devs1 := shuffleData devs0 tms
  let lats := latenciesOf devs1 1
  let u1 := { u with devices := devs1, system_latencies := lats }
  let imbs := u1.devices.map imbalance
  let u2 := { u1 with data_imbalances := imbs }
  let devsR := restoreDevices currentDatasets currentKdDatasets u2.devices
  let u3 := { u2 with devices := devsR }
  ((STD_CORRECTION : ℝ) * npStd lats + ((npMaxQ lats : ℚ) : ℝ)
      + (u.adaptive_scaling_factor : ℝ) * npMaxR imbs,
    u3)

/-- The objective value as the specification words it: the fixed
correction constant times the standard deviation of the latencies,
plus the maximal latency, plus the adaptive scaling factor times the
maximal imbalance, all measured on the tentatively shuffled state. -/
noncomputable def specObjectiveValue (u : UserState) (x : List ℚ) : ℝ :=
  (STD_CORRECTION : ℝ) * npStd (latenciesOf (tentativeDevices u x) 1)
    + ((npMaxQ (latenciesOf (tentativeDevices u x) 1) : ℚ) : ℝ)
    + (u.adaptive_scaling_factor : ℝ) * npMaxR ((tentativeDevices u x).map imbalance)

/-- The communication part of total_latency_devices in src/user.py,
written as the closed triple sum matching the three nested loops. -/
def tCommunication (devs : List DeviceState) : ℚ :=
  (devs.enum.map (fun p =>
    (p.2.transition_matrix.enum.map (fun cr =>
      (devs.enum.map (fun q =>
        if p.1 ≠ q.1 then
          (p.2.transition_matrix.getD cr.1 []).getD q.1 0 *
            (1 / p.2.uplink_rate + 1 / q.2.downlink_rate)
          + (q.2.transition_matrix.getD cr.1 []).getD p.1 0 *
            (1 / p.2.downlink_rate + 1 / q.2.uplink_rate)
        else 0)).sum)).sum)).sum

/-- The computation part of total_latency_devices in src/user.py:
3 * epochs * dataset size * compute, summed over the devices.  Note
that the source multiplies by the compute attribute. -/
def tComputation (devs : List DeviceState) (epochs : Nat) : ℚ :=
  (devs.map (fun d =>
    3 * (epochs : ℚ) * (d.dataset.length : ℚ) * d.compute)).sum

/-- total_latency_devices from src/user.py, translated with the same
imperative accumulation structure as the source: a nested fold for the
communication term followed by a fold for the computation term. -/
def totalLatencyDevices (devs : List DeviceState) (epochs : Nat) : ℚ :=
  let tComm := devs.enum.foldl (fun acc p =>
    p.2.transition_matrix.enum.foldl (fun acc cr =>
      devs.enum.foldl (fun acc q =>
        if p.1 ≠ q.1 then
          acc + (p.2.transition_matrix.getD cr.1 []).getD q.1 0 *
              (1 / p.2.uplink_rate + 1 / q.2.downlink_rate)
            + (q.2.transition_matrix.getD cr.1 []).getD p.1 0 *
              (1 / p.2.downlink_rate + 1 / q.2.uplink_rate)
        else acc) acc) acc) 0
  let tComp := devs.foldl (fun acc d =>
    acc + 3 * (epochs : ℚ) * (d.dataset.length : ℚ) * d.compute) 0
  tComm + tComp

/-- Replaces the compute attribute of device i of the group. -/
def setCompute (devs : List DeviceState) (i : Nat) (c : ℚ) : List DeviceState :=
  devs.set i { devs.getD i dummyDevice with compute := c }

/-- The flattened self column built by non_zero_self_column in
src/user.py: for the matrix of device i, the entry at column i of
every row, accumulated over the devices in order. -/
def selfColumn : Nat → List (List (List ℚ)) → List ℚ
  | _, [] => []
  | i, m :: ms => m.map (fun row => row.getD i 0) ++ selfColumn (i + 1) ms

/-- non_zero_self_column from src/user.py: the self column minus the
epsilon 10 ^ -2.  The optimizer treats the candidate as feasible only
when every component is non-negative. -/
def nonZeroSelfColumn (tms : List (List (List ℚ))) : List ℚ :=
  (selfColumn 0 tms).map (fun v => v - 1 / 100)

/-- Total dataset size of the group, sum(len(device.dataset)). -/
def totalDatasetSize (devs : List DeviceState) : Nat :=
  (devs.map (fun d => d.dataset.length)).sum

/-- Total transferred samples of the group. -/
def totalTransferredSamples (devs : List DeviceState) : Nat :=
  (devs.map (fun d => d.num_transferred_samples)).sum

/-- compute_staleness_factor from src/user.py:
(3 * dataset_size) / ((3 * dataset_size) + num_transferred_samples).
The Python division raises ZeroDivisionError when the denominator is
zero; that fallible outcome is modelled as none. -/
def computeStalenessFactor (devs : List DeviceState) : Option ℚ :=
  let s := totalDatasetSize devs
  let t := totalTransferredSamples devs
  if 3 * s + t = 0 then none
  else some ((3 * (s : ℚ)) / (3 * (s : ℚ) + (t : ℚ)))

/-- C6: for every group state with positive total dataset size,
compute_staleness_factor returns
(3 * total_dataset_size) / (3 * total_dataset_size + total_transferred_samples);
with zero transferred samples the factor is exactly 1. -/
theorem c6_staleness_formula (devs : List DeviceState)
    (h : 0 < totalDatasetSize devs) :
    computeStalenessFactor devs
        = some ((3 * (totalDatasetSize devs : ℚ))
            / (3 * (totalDatasetSize devs : ℚ) + (totalTransferredSamples devs : ℚ)))
      ∧ (totalTransferredSamples devs = 0 → computeStalenessFactor devs = some 1) := by
  have hden : 3 * totalDatasetSize devs + totalTransferredSamples devs ≠ 0 := by omega
  refine ⟨by simp [computeStalenessFactor, hden], ?_⟩
  intro ht
  rw [ht] at hden
  simp [computeStalenessFactor, ht, hden]
  refine ⟨by omega, ?_⟩
  field_simp

/-- Group of three devices holding one hundred samples each, with no
transferred samples: the staleness scenario of the spec. -/
def witnessGroupC6 : List DeviceState :=
  [ { dummyDevice with dataset := List.replicate 100 ⟨0, 0⟩ },
    { dummyDevice with dataset := List.replicate 100 ⟨0, 1⟩ },
    { dummyDevice with dataset := List.replicate 100 ⟨0, 2⟩ } ]

/-- C6 witness: total dataset size 300 and zero transferred samples
give a staleness factor of exactly 1. -/
theorem c6_staleness_witness : computeStalenessFactor witnessGroupC6 = some 1 :=
  (c6_staleness_formula witnessGroupC6 (by decide)).2 (by decide)

/-- Group of two devices with empty datasets and zero counters. -/
def emptyGroupC10 : List DeviceState := [dummyDevice, dummyDevice]

/-- C10: on a group whose devices all have empty datasets and zero
transferred-sample counters, compute_staleness_factor computes
(3 * 0) / (3 * 0 + 0): the Python source raises ZeroDivisionError
rather than returning a neutral value, modelled here as none. -/
theorem c10_staleness_empty_group :
    (∀ d ∈ emptyGroupC10, d.dataset = [] ∧ d.num_transferred_samples = 0)
      ∧ computeStalenessFactor emptyGroupC10 = none := by
  decide

/-- Membership in the flattened self column: exactly the entries at
column (k + j) of the rows of the j-th matrix, matching the offset of
the recursion. -/
theorem mem_selfColumn_iff (w : ℚ) :
    ∀ (tms : List (List (List ℚ))) (k : Nat),
      w ∈ selfColumn k tms
        ↔ ∃ j, j < tms.length ∧ ∃ row ∈ tms.getD j [], w = row.getD (k + j) 0 := by
  intro tms
  induction tms with
  | nil => intro k; simp [selfColumn]
  | cons m ms ih =>
      intro k
      simp only [selfColumn, List.mem_append, List.mem_map, ih (k + 1)]
      constructor
      · rintro (⟨row, hrow, rfl⟩ | ⟨j, hj, row, hrow, rfl⟩)
        · exact ⟨0, by simp, row, by simpa using hrow, by simp⟩
        · refine ⟨j + 1, by simp only [List.length_cons]; omega, row,
            by simpa using hrow, ?_⟩
          congr 1
          omega
      · rintro ⟨j, hj, row, hrow, rfl⟩
        cases j with
        | zero => exact Or.inl ⟨row, by simpa using hrow, by simp⟩
        | succ j =>
            refine Or.inr ⟨j, by simp only [List.length_cons] at hj; omega, row,
              by simpa using hrow, ?_⟩
            congr 1
            omega

/-- C4: the inequality-constraint function non_zero_self_column is
componentwise non-negative exactly when, for every device i and every
cluster row of the matrix of device i, the diagonal entry at column i
is at least the epsilon 10 ^ -2; a violated row makes some component
negative, so the optimizer rejects the candidate. -/
theorem c4_self_retention (tms : List (List (List ℚ))) :
    (∀ v ∈ nonZeroSelfColumn tms, 0 ≤ v)
      ↔ ∀ i, i < tms.length → ∀ row ∈ tms.getD i [], 1 / 100 ≤ row.getD i 0 := by
  unfold nonZeroSelfColumn
  constructor
  · intro h i hi row hrow
    have hm : row.getD i 0 - 1 / 100 ∈ (selfColumn 0 tms).map (fun v => v - 1 / 100) :=
      List.mem_map.mpr ⟨row.getD i 0,
        (mem_selfColumn_iff _ tms 0).mpr ⟨i, hi, row, hrow, by simp⟩, rfl⟩
    have := h _ hm
    linarith
  · intro h v hv
    obtain ⟨w, hw, rfl⟩ := List.mem_map.mp hv
    obtain ⟨j, hj, row, hrow, rfl⟩ := (mem_selfColumn_iff _ tms 0).mp hw
    have := h j hj row hrow
    simp only [Nat.zero_add] at this ⊢
    linarith

/-- Candidate transition matrices for two devices and three clusters
whose diagonal entries all equal 1. -/
def witnessTmsC4 : List (List (List ℚ)) :=
  [[[1, 0], [1, 0], [1, 0]], [[0, 1], [0, 1], [0, 1]]]

/-- C4 witness: on a concrete feasible candidate the constraint is
componentwise non-negative and the extracted diagonal bound holds. -/
theorem c4_self_retention_witness :
    (1 : ℚ) / 100 ≤ ((witnessTmsC4.getD 0 []).getD 0 []).getD 0 0 :=
  (c4_self_retention witnessTmsC4).mp
    (by norm_num [nonZeroSelfColumn, selfColumn, witnessTmsC4])
    0 (by norm_num [witnessTmsC4])
    ((witnessTmsC4.getD 0 []).getD 0 []) (by norm_num [witnessTmsC4])

/-- A left fold that only accumulates additions equals the starting
value plus the sum of the mapped list. -/
theorem fold_add_sum {γ : Type _} (f : γ → ℚ) :
    ∀ (l : List γ) (a : ℚ),
      l.foldl (fun acc q => acc + f q) a = a + (l.map f).sum := by
  intro l
  induction l with
  | nil => intro a; simp
  | cons x t ih => intro a; simp [ih]; ring

/-- A left fold that accumulates two additions under a guard equals
the starting value plus the sum of the guarded terms. -/
theorem fold_if_sum {γ : Type _} (P : γ → Prop) [DecidablePred P] (X Y : γ → ℚ) :
    ∀ (l : List γ) (a : ℚ),
      l.foldl (fun acc q => if P q then acc + X q + Y q else acc) a
        = a + (l.map (fun q => if P q then X q + Y q else 0)).sum := by
  intro l
  induction l with
  | nil => intro a; simp
  | cons x t ih =>
      intro a
      by_cases h : P x
      · simp [h, ih]; ring
      · simp [h, ih]

/-- The imperative accumulation of total_latency_devices equals the
closed communication sum plus the closed computation sum. -/
theorem totalLatency_eq (devs : List DeviceState) (epochs : Nat) :
    totalLatencyDevices devs epochs = tCommunication devs + tComputation devs epochs := by
  unfold totalLatencyDevices tCommunication tComputation
  simp only [fold_if_sum, fold_add_sum, zero_add]

/-- Raising the compute attribute of any one device does not decrease
the computation term of total_latency_devices. -/
theorem tComputation_setCompute_mono (epochs : Nat) (c₁ c₂ : ℚ) (h : c₁ ≤ c₂) :
    ∀ (devs : List DeviceState) (i : Nat),
      tComputation (setCompute devs i c₁) epochs
        ≤ tComputation (setCompute devs i c₂) epochs := by
  intro devs
  induction devs with
  | nil => intro i; simp [setCompute, tComputation]
  | cons d t ih =>
      intro i
      cases i with
      | zero =>
          simp only [setCompute, List.getD_cons_zero, List.set_cons_zero, tComputation,
            List.map_cons, List.sum_cons]
          have h3 : (3 : ℚ) * epochs * d.dataset.length * c₁
              ≤ 3 * epochs * d.dataset.length * c₂ := by
            apply mul_le_mul_of_nonneg_left h
            positivity
          linarith
      | succ n =>
          have hih := ih n
          simp only [setCompute, List.getD_cons_succ, List.set_cons_succ, tComputation,
            List.map_cons, List.sum_cons] at hih ⊢
          linarith

/-- C2 (amended): total_latency_devices is the group-total latency,
the sum of a communication term accumulating, for every off-diagonal
pair, mass over uplink of the sender plus mass over downlink of the
receiver in both directions, and a computation term accumulating
3 * epochs * dataset size * compute; raising the compute attribute of
a device does not lower (and in general raises) the computation term. -/
theorem c2_latency_model (devs : List DeviceState) (epochs : Nat) (i : Nat)
    (c₁ c₂ : ℚ) (h : c₁ ≤ c₂) :
    totalLatencyDevices devs epochs = tCommunication devs + tComputation devs epochs
      ∧ tComputation (setCompute devs i c₁) epochs
          ≤ tComputation (setCompute devs i c₂) epochs :=
  ⟨totalLatency_eq devs epochs, tComputation_setCompute_mono epochs c₁ c₂ h devs i⟩

/-- Singleton group used by the C2 witness. -/
def witnessDeviceC2 : DeviceState :=
  { dummyDevice with dataset := [⟨0, 0⟩] }

/-- C2 witness: the amended latency decomposition and the compute
monotonicity instantiated on a concrete singleton group. -/
theorem c2_latency_model_witness :
    totalLatencyDevices [witnessDeviceC2] 1
        = tCommunication [witnessDeviceC2] + tComputation [witnessDeviceC2] 1
      ∧ tComputation (setCompute [witnessDeviceC2] 0 1) 1
          ≤ tComputation (setCompute [witnessDeviceC2] 0 2) 1 :=
  c2_latency_model [witnessDeviceC2] 1 0 1 2 (by norm_num)

/-- Device with compute attribute 1 holding one sample. -/
def devLoC2 : DeviceState := { dummyDevice with dataset := [⟨0, 0⟩], compute := 1 }

/-- Device identical to devLoC2 except for a doubled compute attribute. -/
def devHiC2 : DeviceState := { dummyDevice with dataset := [⟨0, 0⟩], compute := 2 }

/-- C2 counterexample: holding everything else fixed, the device with
the larger compute attribute gets the strictly larger latency, because
total_latency_devices multiplies by the compute attribute instead of
dividing by it; this refutes the claim that a larger compute
capability yields a lower computation time. -/
theorem c2_counterexample :
    devLoC2.compute < devHiC2.compute
      ∧ devLoC2.dataset = devHiC2.dataset
      ∧ totalLatencyDevices [devLoC2] 1 < totalLatencyDevices [devHiC2] 1 := by
  refine ⟨by norm_num [devLoC2, devHiC2], by norm_num [devLoC2, devHiC2], ?_⟩
  norm_num [totalLatencyDevices, devLoC2, devHiC2, dummyDevice, List.enum, List.enumFrom]

/-- A left fold preserves any invariant preserved by its step. -/
theorem foldl_preserve {σ γ : Type _} (P : σ → Prop) (f : σ → γ → σ)
    (hf : ∀ s a, P s → P (f s a)) :
    ∀ (l : List γ) (s : σ), P s → P (l.foldl f s) := by
  intro l
  induction l with
  | nil => intro s hs; exact hs
  | cons a t ih => intro s hs; exact ih _ (hf s a hs)

/-- Indexing with a default that satisfies an invariant held by every
element yields an element satisfying the invariant. -/
theorem getD_holds {P : DeviceState → Prop} (hdum : P dummyDevice)
    (devs : List DeviceState) (h : ∀ d ∈ devs, P d) :
    ∀ i : Nat, P (devs.getD i dummyDevice) := by
  induction devs with
  | nil => intro i; simpa [List.getD] using hdum
  | cons d t ih =>
      intro i
      cases i with
      | zero => exact h d (by simp)
      | succ n =>
          simp only [List.getD_cons_succ]
          exact ih (fun x hx => h x (by simp [hx])) n

/-- The device state returned by removeData always has dataset and
cluster arrays of equal length: both are projections of the same
remaining pair list. -/
theorem removeData_parallel (d : DeviceState) (c : Nat) (pct : ℚ) (b : Bool) :
    (removeData d c pct b).2.dataset.length
      = (removeData d c pct b).2.clusters.length := by
  simp [removeData]

/-- sendData preserves the parallel-array invariant of every device of
the group. -/
theorem sendData_parallel (devs : List DeviceState) (s r c : Nat) (pct : ℚ)
    (h : ∀ d ∈ devs, d.dataset.length = d.clusters.length) :
    ∀ d ∈ sendData devs s r c pct, d.dataset.length = d.clusters.length := by
  intro d hd
  unfold sendData at hd
  by_cases hsr : s = r
  · rw [if_pos hsr] at hd
    rcases List.mem_or_eq_of_mem_set hd with h1 | h1
    · exact h d h1
    · rw [h1]; exact removeData_parallel _ _ _ _
  · rw [if_neg hsr] at hd
    simp only [] at hd
    rcases List.mem_or_eq_of_mem_set hd with h1 | h1
    · rcases List.mem_or_eq_of_mem_set h1 with h2 | h2
      · exact h d h2
      · rw [h2]; exact removeData_parallel _ _ _ _
    · rw [h1]
      have hrecv : (devs.getD r dummyDevice).dataset.length
          = (devs.getD r dummyDevice).clusters.length :=
        getD_holds (P := fun d => d.dataset.length = d.clusters.length) rfl devs h r
      simp only [addData, List.length_append, List.length_replicate]
      omega

/-- shuffleData preserves the parallel-array invariant of every device
of the group. -/
theorem shuffleData_parallel (devs : List DeviceState) (tms : List (List (List ℚ)))
    (h : ∀ d ∈ devs, d.dataset.length = d.clusters.length) :
    ∀ d ∈ shuffleData devs tms, d.dataset.length = d.clusters.length := by
  unfold shuffleData
  refine foldl_preserve
    (fun ds : List DeviceState => ∀ d ∈ ds, d.dataset.length = d.clusters.length) _ ?_ _ _ h
  intro ds p hds
  refine foldl_preserve
    (fun ds : List DeviceState => ∀ d ∈ ds, d.dataset.length = d.clusters.length) _ ?_ _ _ hds
  intro ds c hds
  refine foldl_preserve
    (fun ds : List DeviceState => ∀ d ∈ ds, d.dataset.length = d.clusters.length) _ ?_ _ _ hds
  intro ds j hds
  exact sendData_parallel _ _ _ _ _ hds

/-- sendData keeps the number of devices of the group unchanged. -/
theorem sendData_length (devs : List DeviceState) (s r c : Nat) (pct : ℚ) :
    (sendData devs s r c pct).length = devs.length := by
  unfold sendData
  by_cases hsr : s = r <;> simp [hsr]

/-- shuffleData keeps the number of devices of the group unchanged. -/
theorem shuffleData_length (devs : List DeviceState) (tms : List (List (List ℚ))) :
    (shuffleData devs tms).length = devs.length := by
  unfold shuffleData
  refine foldl_preserve (fun ds : List DeviceState => ds.length = devs.length) _ ?_ _ _ rfl
  intro ds p hds
  refine foldl_preserve (fun ds : List DeviceState => ds.length = devs.length) _ ?_ _ _ hds
  intro ds c hds
  refine foldl_preserve (fun ds : List DeviceState => ds.length = devs.length) _ ?_ _ _ hds
  intro ds j hds
  rw [sendData_length]
  exact hds

/-- C5: if every device of the group satisfies
len(dataset) = len(cluster_labels) before a shuffle_data call, every
device still satisfies it afterwards: every removal and every append
performed by the shuffling engine updates both parallel arrays. -/
theorem c5_shuffle_parallel (devs : List DeviceState) (tms : List (List (List ℚ)))
    (h : ∀ d ∈ devs, d.dataset.length = d.clusters.length) :
    ∀ d ∈ shuffleData devs tms, d.dataset.length = d.clusters.length :=
  shuffleData_parallel devs tms h

/-- Device with two samples of cluster 0 used by the C5 witness. -/
def witnessDeviceC5 : DeviceState :=
  { dummyDevice with dataset := [⟨0, 0⟩, ⟨1, 0⟩], clusters := [0, 0] }

/-- C5 witness: a concrete one-device shuffle that moves one sample
into the knowledge-distillation buffer keeps the arrays parallel. -/
theorem c5_shuffle_parallel_witness :
    ((shuffleData [witnessDeviceC5] [[[1]]]).getD 0 dummyDevice).dataset.length
      = ((shuffleData [witnessDeviceC5] [[[1]]]).getD 0 dummyDevice).clusters.length := by
  have hmem : (shuffleData [witnessDeviceC5] [[[1]]]).getD 0 dummyDevice
      ∈ shuffleData [witnessDeviceC5] [[[1]]] := by
    simp [shuffleData, sendData, removeData, addData, removePairs, witnessDeviceC5,
      dummyDevice, List.enum, List.enumFrom,
      show List.range 1 = [0] from by decide]
  exact c5_shuffle_parallel [witnessDeviceC5] [[[1]]] (by simp [witnessDeviceC5]) _ hmem

/-- The restore loop overwrites the datasets and kd datasets of the
devices with the snapshot lists, position by position. -/
theorem restoreDevices_project :
    ∀ (dss kss : List (List Sample)) (devs : List DeviceState),
      dss.length = devs.length → kss.length = devs.length →
      (restoreDevices dss kss devs).map (fun d => d.dataset) = dss
      ∧ (restoreDevices dss kss devs).map (fun d => d.kd_dataset) = kss := by
  intro dss
  induction dss with
  | nil =>
      intro kss devs h1 h2
      cases devs with
      | nil =>
          cases kss with
          | nil => simp [restoreDevices]
          | cons k ks => simp at h2
      | cons d ds => simp at h1
  | cons ds dss ih =>
      intro kss devs h1 h2
      cases devs with
      | nil => simp at h1
      | cons dev devs =>
          cases kss with
          | nil => simp at h2
          | cons ks kss =>
              have hih := ih kss devs (by simpa using h1) (by simpa using h2)
              simp only [restoreDevices, List.map_cons]
              exact ⟨by rw [hih.1], by rw [hih.2]⟩

/-- C1 (amended): a single evaluation of the optimizer objective
restores every device dataset and every device kd dataset to the
snapshot taken before the tentative shuffle; the cluster labels and
the num_transferred_samples counter are not restored (the counter is
zeroed at the start of the evaluation and is left holding the
tentative transfer count). -/
theorem c1_rollback_datasets (u : UserState) (x : List ℚ) :
    (objectiveFunction u x).2.devices.map (fun d => d.dataset)
        = u.devices.map (fun d => d.dataset)
      ∧ (objectiveFunction u x).2.devices.map (fun d => d.kd_dataset)
        = u.devices.map (fun d => d.kd_dataset) := by
  have hlen : (shuffleData
        (u.devices.map (fun d => { d with num_transferred_samples := 0 }))
        (reshape3 u.devices.length (numClusters NUM_CLASSES u.shrinkage) x)).length
      = u.devices.length := by
    rw [shuffleData_length, List.length_map]
  exact restoreDevices_project _ _ _ (by simp [hlen]) (by simp [hlen])

/-- Device holding one sample of cluster 0 with a non-zero
transferred-samples counter, used by the C1 counterexample. -/
def cexDeviceC1 : DeviceState :=
  { dummyDevice with dataset := [⟨7, 0⟩], clusters := [0], num_transferred_samples := 5 }

/-- Two-device group in the source configuration (shrinkage ratio
three tenths, so three surrogate clusters). -/
def cexUserC1 : UserState :=
  { devices := [cexDeviceC1, dummyDevice], system_latencies := [], data_imbalances := [],
    adaptive_scaling_factor := 1, shrinkage := 3 / 10 }

/-- Flat candidate vector whose only transfer sends all of cluster 0
of device 0 to device 1. -/
def cexXC1 : List ℚ := [0, 1, 0, 0, 0, 0, 0, 0, 0, 0, 0, 0]

/-- C1 counterexample: after one objective evaluation on a concrete
two-device group, the devices do not return to their prior state:
device 0 keeps its restored dataset but loses its cluster labels, and
both counters hold the tentative transfer count instead of their
previous values. -/
theorem c1_counterexample :
    ¬ ((objectiveFunction cexUserC1 cexXC1).2.devices.map
          (fun d => (d.dataset, d.clusters, d.kd_dataset, d.num_transferred_samples))
        = cexUserC1.devices.map
          (fun d => (d.dataset, d.clusters, d.kd_dataset, d.num_transferred_samples))) := by
  have hval : (objectiveFunction cexUserC1 cexXC1).2.devices
      = [{ dataset := [⟨7, 0⟩], clusters := [], kd_dataset := [],
           num_transferred_samples := 1, transition_matrix := [],
           uplink_rate := 1, downlink_rate := 1, compute := 1 },
         { dataset := [], clusters := [0], kd_dataset := [],
           num_transferred_samples := 1, transition_matrix := [],
           uplink_rate := 1, downlink_rate := 1, compute := 1 }] := by
    simp [objectiveFunction, shuffleData, sendData, removeData, addData,
      removePairs, reshape3, restoreDevices, cexUserC1, cexDeviceC1, cexXC1, dummyDevice,
      List.enum, List.enumFrom,
      show numClusters NUM_CLASSES (3 / 10) = 3 from by
        have h : ⌊(NUM_CLASSES : ℚ) * (3 / 10)⌋ = 3 := by norm_num [NUM_CLASSES]
        rw [numClusters, h]
        rfl,
      show List.range 3 = [0, 1, 2] from by decide,
      show List.range 2 = [0, 1] from by decide]
  rw [hval]
  decide

/-- C3: the value returned by a single evaluation of
objective_function is exactly STD_CORRECTION times the standard
deviation of the per-device latencies plus the maximal latency plus
the adaptive scaling factor times the maximal imbalance, where the
latencies and imbalances are those of the tentatively shuffled group
state; the subsequent rollback does not alter the returned value. -/
theorem c3_objective_value (u : UserState) (x : List ℚ) :
    (objectiveFunction u x).1 = specObjectiveValue u x := rfl

/-- Indexing a mapped range with a default recovers the function. -/
theorem getD_range_map {α : Type _} (f : Nat → α) (len c : Nat) (hc : c < len) (d0 : α) :
    ((List.range len).map f).getD c d0 = f c := by
  rw [List.getD_eq_getElem?_getD]
  simp [List.getElem?_map, List.getElem?_range, hc]

/-- A fold of max stays below a strict bound of its inputs. -/
theorem foldl_max_lt (m : Nat) :
    ∀ (xs : List Nat) (a : Nat), a < m → (∀ x ∈ xs, x < m) → xs.foldl max a < m := by
  intro xs
  induction xs with
  | nil => intro a ha _; simpa using ha
  | cons x t ih =>
      intro a ha h
      simp only [List.foldl_cons]
      exact ih _ (by simp [Nat.max_lt, ha, h x (by simp)]) (fun y hy => h y (by simp [hy]))

/-- When every value is below the minlength, the bincount vector has
exactly the minlength entries. -/
theorem bincount_length (m : Nat) (xs : List Nat) (h : ∀ x ∈ xs, x < m) :
    (bincount m xs).length = m := by
  unfold bincount
  cases xs with
  | nil => simp
  | cons x t =>
      simp only [List.length_map, List.length_range]
      have hx : x < m := h x (by simp)
      have hm : 0 < m := lt_of_le_of_lt (Nat.zero_le x) hx
      have hfold : (x :: t).foldl max 0 < m := foldl_max_lt m _ 0 hm h
      exact Nat.max_eq_left (by omega)

/-- Every in-range entry of the bincount vector is the count of its
index in the input. -/
theorem bincount_getD (m : Nat) (xs : List Nat) (c : Nat)
    (hc : c < (bincount m xs).length) :
    (bincount m xs).getD c 0 = xs.count c := by
  unfold bincount at hc ⊢
  cases xs with
  | nil =>
      simp only [List.length_map, List.length_range] at hc
      exact getD_range_map _ _ _ hc _
  | cons x t =>
      simp only [List.length_map, List.length_range] at hc
      exact getD_range_map _ _ _ hc _

/-- C8 (amended): with labels in the class range, label_distribution
returns a vector of length exactly NUM_CLASSES with bin-count
semantics; with cluster ids below 5, cluster_distribution returns a
vector of length exactly 5 (the hard-coded minlength of the source,
not the cluster count K) with bin-count semantics. -/
theorem c8_distributions (d : DeviceState)
    (hl : ∀ l ∈ d.dataset.map Sample.label, l < NUM_CLASSES)
    (hc : ∀ c ∈ d.clusters, c < 5) :
    (labelDistribution d).length = NUM_CLASSES
    ∧ (∀ c, c < NUM_CLASSES →
        (labelDistribution d).getD c 0 = (d.dataset.map Sample.label).count c)
    ∧ (clusterDistribution d).length = 5
    ∧ (∀ c, c < 5 → (clusterDistribution d).getD c 0 = d.clusters.count c) := by
  have h1 := bincount_length NUM_CLASSES (d.dataset.map Sample.label) hl
  have h2 := bincount_length 5 d.clusters hc
  refine ⟨h1, ?_, h2, ?_⟩
  · intro c hcc
    exact bincount_getD _ _ _ (by omega)
  · intro c hcc
    exact bincount_getD _ _ _ (by omega)

/-- Device used by the C8 witness: one sample per class and cluster
ids 0, 1, 2. -/
def witnessDeviceC8 : DeviceState :=
  { dummyDevice with
      dataset := (List.range 10).map (fun i => ⟨i, i⟩),
      clusters := [0, 1, 2] }

/-- C8 witness: the amended distribution lengths on a concrete device. -/
theorem c8_distributions_witness :
    (labelDistribution witnessDeviceC8).length = NUM_CLASSES
      ∧ (clusterDistribution witnessDeviceC8).length = 5 :=
  ⟨(c8_distributions witnessDeviceC8 (by decide) (by decide)).1,
   (c8_distributions witnessDeviceC8 (by decide) (by decide)).2.2.1⟩

/-- Device whose cluster ids all lie below K = 3. -/
def cexDeviceC8 : DeviceState := { dummyDevice with clusters := [0, 1, 2] }

/-- C8 counterexample: with ten classes and shrinkage ratio three
tenths the cluster count K is 3, yet cluster_distribution returns a
vector of length 5 (the hard-coded minlength), refuting the claimed
length K. -/
theorem c8_counterexample :
    (∀ c ∈ cexDeviceC8.clusters, c < numClusters NUM_CLASSES (3 / 10))
      ∧ (clusterDistribution cexDeviceC8).length ≠ numClusters NUM_CLASSES (3 / 10) := by
  have hk : numClusters NUM_CLASSES (3 / 10) = 3 := by
    have h : ⌊(NUM_CLASSES : ℚ) * (3 / 10)⌋ = 3 := by norm_num [NUM_CLASSES]
    rw [numClusters, h]
    rfl
  rw [hk]
  exact ⟨by decide, by decide⟩

/-- Selecting through an index list of in-range indices keeps the
length of the index list. -/
theorem shuffleSelect_length (xs : List Sample) :
    ∀ (order : List Nat), (∀ i ∈ order, i < xs.length) →
      (shuffleSelect order xs).length = order.length := by
  intro order
  induction order with
  | nil => intro _; rfl
  | cons i t ih =>
      intro h
      have hi : i < xs.length := h i (by simp)
      have hsome : xs.get? i = some (xs.get ⟨i, hi⟩) := List.get?_eq_get hi
      simp only [shuffleSelect, List.filterMap_cons, hsome]
      simp only [List.length_cons]
      have := ih (fun j hj => h j (by simp [hj]))
      simp only [shuffleSelect] at this
      rw [this]

/-- Elements produced by shuffleSelect come from the source list. -/
theorem shuffleSelect_mem (xs : List Sample) (order : List Nat) (s : Sample)
    (hs : s ∈ shuffleSelect order xs) : s ∈ xs := by
  unfold shuffleSelect at hs
  obtain ⟨i, _, hget⟩ := List.mem_filterMap.mp hs
  exact List.get?_mem hget

/-- C9 (amended): sample returns the first floor(percentage * size)
elements of the dataset reordered by the permutation drawn by the
library shuffle; the size of the result is deterministic, and every
returned sample comes from the dataset, but the selection itself
depends on the drawn permutation. -/
theorem c9_sample (d : DeviceState) (pct : ℚ) (order : List Nat)
    (hperm : order.Perm (List.range d.dataset.length))
    (h1 : pct ≤ 1) :
    (sample pct order d).length = (⌊pct * (d.dataset.length : ℚ)⌋).toNat
    ∧ ∀ s ∈ sample pct order d, s ∈ d.dataset := by
  have hmem : ∀ i ∈ order, i < d.dataset.length := by
    intro i hi
    have := hperm.mem_iff.mp hi
    simpa [List.mem_range] using this
  have hlen : (shuffleSelect order d.dataset).length = d.dataset.length := by
    rw [shuffleSelect_length _ _ hmem, hperm.length_eq, List.length_range]
  constructor
  · show ((shuffleSelect order d.dataset).take _).length = _
    rw [List.length_take, hlen]
    apply min_eq_left
    have hle : pct * (d.dataset.length : ℚ) ≤ (d.dataset.length : ℚ) :=
      mul_le_of_le_one_left (by positivity) h1
    have hfl : ⌊pct * (d.dataset.length : ℚ)⌋ ≤ ⌊((d.dataset.length : ℕ) : ℚ)⌋ :=
      Int.floor_le_floor hle
    rw [Int.floor_natCast] at hfl
    calc (⌊pct * (d.dataset.length : ℚ)⌋).toNat
        ≤ ((d.dataset.length : ℕ) : ℤ).toNat := Int.toNat_le_toNat hfl
      _ = d.dataset.length := Int.toNat_natCast _
  · intro s hs
    exact shuffleSelect_mem _ _ _ (List.mem_of_mem_take hs)

/-- Two-sample device used by the C9 analysis. -/
def cexDeviceC9 : DeviceState :=
  { dummyDevice with dataset := [⟨0, 0⟩, ⟨1, 0⟩] }

/-- C9 witness: the amended size guarantee on a concrete device and a
concrete drawn permutation. -/
theorem c9_sample_witness :
    (sample (1 / 2) [1, 0] cexDeviceC9).length
      = (⌊(1 / 2 : ℚ) * (cexDeviceC9.dataset.length : ℚ)⌋).toNat :=
  (c9_sample cexDeviceC9 (1 / 2) [1, 0] (by decide) (by norm_num)).1

/-- C9 counterexample: two evaluations of sample on the same device
state with two different drawn shuffle permutations return different
ordered sequences, refuting the claimed determinism of sample. -/
theorem c9_counterexample :
    ([0, 1].Perm (List.range cexDeviceC9.dataset.length))
    ∧ ([1, 0].Perm (List.range cexDeviceC9.dataset.length))
    ∧ sample (1 / 2) [0, 1] cexDeviceC9 ≠ sample (1 / 2) [1, 0] cexDeviceC9 := by
  have e1 : sample (1 / 2) [0, 1] cexDeviceC9 = [⟨0, 0⟩] := by
    norm_num [sample, shuffleSelect, cexDeviceC9, dummyDevice]
    decide
  have e2 : sample (1 / 2) [1, 0] cexDeviceC9 = [⟨1, 0⟩] := by
    norm_num [sample, shuffleSelect, cexDeviceC9, dummyDevice]
    decide
  refine ⟨by decide, by decide, ?_⟩
  rw [e1, e2]
  decide

/-- zipWith of a function with both arguments from the same list is a
map of its diagonal. -/
theorem zipWith_diag {α β : Type _} (f : α → α → β) :
    ∀ l : List α, List.zipWith f l l = l.map (fun a => f a a) := by
  intro l
  induction l with
  | nil => rfl
  | cons a t ih => simp [List.zipWith_cons_cons, ih]

/-- The relative entropy of an entry against itself vanishes. -/
theorem relEntr_self (a : ℝ) : relEntr a a = 0 := by
  unfold relEntr
  split
  · rfl
  · next h =>
      push_neg at h
      rw [div_self (ne_of_gt h), Real.log_one, mul_zero]

/-- The Jensen-Shannon distance of a distribution to itself is zero. -/
theorem jensenshannon_self (p : List ℝ) : jensenshannon p p = 0 := by
  simp only [jensenshannon]
  have hm : List.zipWith (fun a b : ℝ => (a + b) / 2) (p.map (fun a => a / p.sum))
      (p.map (fun a => a / p.sum)) = p.map (fun a => a / p.sum) := by
    rw [zipWith_diag]
    have : ∀ a : ℝ, (a + a) / 2 = a := fun a => by ring
    simp [this]
  rw [hm, zipWith_diag]
  have hfun : (fun a : ℝ => relEntr a a) = fun _ => (0 : ℝ) := funext relEntr_self
  have hzero : ∀ l : List ℝ, (l.map (fun _ => (0 : ℝ))).sum = 0 := by
    intro l
    induction l with
    | nil => rfl
    | cons a t ih => simp [ih]
  rw [hfun, hzero]
  norm_num

/-- The Jensen-Shannon distance is symmetric in its two arguments. -/
theorem jensenshannon_comm (p q : List ℝ) : jensenshannon p q = jensenshannon q p := by
  simp only [jensenshannon]
  rw [List.zipWith_comm_of_comm (fun a b : ℝ => (a + b) / 2) (fun x y => by ring)]
  rw [add_comm]

/-- Against the midpoint, each relative-entropy term is bounded by the
entry times log 2. -/
theorem relEntr_mid_le (a b : ℝ) (ha : 0 ≤ a) (hb : 0 ≤ b) :
    relEntr a ((a + b) / 2) ≤ a * Real.log 2 := by
  unfold relEntr
  split
  · next h =>
      have ha0 : a = 0 := le_antisymm h ha
      rw [ha0, zero_mul]
  · next h =>
      push_neg at h
      have hm : 0 < (a + b) / 2 := by linarith
      have hq : a / ((a + b) / 2) ≤ 2 := by
        rw [div_le_iff₀ hm]
        linarith
      have hq0 : 0 < a / ((a + b) / 2) := div_pos h hm
      exact mul_le_mul_of_nonneg_left (Real.log_le_log hq0 hq) (le_of_lt h)

/-- The relative-entropy sum against the midpoint list is bounded by
log 2 times the total mass of the first list. -/
theorem relEntr_sum_le :
    ∀ (p q : List ℝ), (∀ x ∈ p, 0 ≤ x) → (∀ x ∈ q, 0 ≤ x) →
      (List.zipWith relEntr p (List.zipWith (fun a b => (a + b) / 2) p q)).sum
        ≤ Real.log 2 * p.sum := by
  intro p
  induction p with
  | nil => intro q _ _; simp
  | cons a p ih =>
      intro q hp hq
      cases q with
      | nil =>
          simp only [List.zipWith_nil_right, List.sum_nil]
          have hs : 0 ≤ (a :: p).sum := List.sum_nonneg hp
          exact mul_nonneg (Real.log_nonneg one_le_two) hs
      | cons b q =>
          simp only [List.zipWith_cons_cons, List.sum_cons]
          have h1 := relEntr_mid_le a b (hp a (by simp)) (hq b (by simp))
          have h2 := ih q (fun x hx => hp x (by simp [hx])) (fun x hx => hq x (by simp [hx]))
          have h3 : Real.log 2 * (a + p.sum) = a * Real.log 2 + Real.log 2 * p.sum := by
            ring
          rw [h3]
          exact add_le_add h1 h2

/-- Dividing every entry by a constant divides the sum. -/
theorem sum_map_div (c : ℝ) :
    ∀ l : List ℝ, (l.map (fun a => a / c)).sum = l.sum / c := by
  intro l
  induction l with
  | nil => simp
  | cons a t ih => simp [ih, add_div]

/-- A list normalized by its own sum has total mass at most one. -/
theorem normalized_sum_le_one (p : List ℝ) :
    (p.map (fun a => a / p.sum)).sum ≤ 1 := by
  rw [sum_map_div]
  rcases eq_or_ne p.sum 0 with h | h
  · simp [h]
  · rw [div_self h]

/-- The Jensen-Shannon distance is non-negative. -/
theorem jensenshannon_nonneg (p q : List ℝ) : 0 ≤ jensenshannon p q := by
  simp only [jensenshannon]
  exact Real.sqrt_nonneg _

/-- On componentwise non-negative inputs the Jensen-Shannon distance
is bounded by the square root of log 2. -/
theorem jensenshannon_le_sqrt_log_two (p q : List ℝ)
    (hp : ∀ x ∈ p, 0 ≤ x) (hq : ∀ x ∈ q, 0 ≤ x) :
    jensenshannon p q ≤ Real.sqrt (Real.log 2) := by
  simp only [jensenshannon]
  apply Real.sqrt_le_sqrt
  have hps : 0 ≤ p.sum := List.sum_nonneg hp
  have hqs : 0 ≤ q.sum := List.sum_nonneg hq
  have hpn : ∀ x ∈ p.map (fun a => a / p.sum), 0 ≤ x := by
    intro x hx
    obtain ⟨a, ha, rfl⟩ := List.mem_map.mp hx
    exact div_nonneg (hp a ha) hps
  have hqn : ∀ x ∈ q.map (fun a => a / q.sum), 0 ≤ x := by
    intro x hx
    obtain ⟨a, ha, rfl⟩ := List.mem_map.mp hx
    exact div_nonneg (hq a ha) hqs
  have hL := relEntr_sum_le (p.map (fun a => a / p.sum)) (q.map (fun a => a / q.sum)) hpn hqn
  have hcomm : List.zipWith (fun a b : ℝ => (a + b) / 2) (p.map (fun a => a / p.sum))
      (q.map (fun a => a / q.sum))
      = List.zipWith (fun a b : ℝ => (a + b) / 2) (q.map (fun a => a / q.sum))
        (p.map (fun a => a / p.sum)) :=
    List.zipWith_comm_of_comm _ (fun x y => by ring) _ _
  have hR := relEntr_sum_le (q.map (fun a => a / q.sum)) (p.map (fun a => a / p.sum)) hqn hpn
  rw [← hcomm] at hR
  have hp1 := normalized_sum_le_one p
  have hq1 := normalized_sum_le_one q
  have hlog : 0 ≤ Real.log 2 := Real.log_nonneg one_le_two
  have hL2 : (List.zipWith relEntr (p.map (fun a => a / p.sum))
      (List.zipWith (fun a b => (a + b) / 2) (p.map (fun a => a / p.sum))
        (q.map (fun a => a / q.sum)))).sum ≤ Real.log 2 :=
    le_trans hL (by nlinarith)
  have hR2 : (List.zipWith relEntr (q.map (fun a => a / q.sum))
      (List.zipWith (fun a b => (a + b) / 2) (p.map (fun a => a / p.sum))
        (q.map (fun a => a / q.sum)))).sum ≤ Real.log 2 :=
    le_trans hR (by nlinarith)
  linarith

/-- The bincount vector is never shorter than the minlength. -/
theorem bincount_length_ge (m : Nat) (xs : List Nat) : m ≤ (bincount m xs).length := by
  unfold bincount
  cases xs with
  | nil => simp
  | cons x t => simp [Nat.le_max_left]

/-- The label-distribution vector always has at least one entry. -/
theorem labelDistribution_length_pos (d : DeviceState) :
    0 < (labelDistribution d).length :=
  lt_of_lt_of_le (by norm_num [NUM_CLASSES])
    (bincount_length_ge NUM_CLASSES (d.dataset.map Sample.label))

/-- On a non-empty dataset, imbalance is the Jensen-Shannon distance
between the balanced distribution and the label distribution. -/
theorem imbalance_eq (d : DeviceState) (h : ¬ d.dataset.length = 0) :
    imbalance d = jensenshannon
      (List.replicate ((labelDistribution d).map (Nat.cast : Nat → ℝ)).length
        (((labelDistribution d).map (Nat.cast : Nat → ℝ)).sum
          / (((labelDistribution d).map (Nat.cast : Nat → ℝ)).length : ℝ)))
      ((labelDistribution d).map (Nat.cast : Nat → ℝ)) := by
  simp only [imbalance]
  rw [if_neg h]

/-- A perfectly uniform label distribution yields imbalance exactly
zero: the balanced distribution coincides with the counts. -/
theorem imbalance_uniform (d : DeviceState)
    (h : ∃ k, labelDistribution d = List.replicate (labelDistribution d).length k) :
    imbalance d = 0 := by
  rcases Nat.eq_zero_or_pos d.dataset.length with hz | hpos
  · simp [imbalance, hz]
  · obtain ⟨k, hk⟩ := h
    have hlen : 0 < (labelDistribution d).length := labelDistribution_length_pos d
    rw [imbalance_eq d (by omega)]
    rw [hk, List.map_replicate]
    have hlenmap : (List.replicate (labelDistribution d).length ((k : ℝ))).length
        = (labelDistribution d).length := List.length_replicate _ _
    have hsum : (List.replicate (labelDistribution d).length ((k : ℝ))).sum
        = ((labelDistribution d).length : ℝ) * (k : ℝ) := by
      rw [List.sum_replicate, nsmul_eq_mul]
    rw [hlenmap, hsum]
    have hne : (((labelDistribution d).length : ℕ) : ℝ) ≠ 0 := by
      exact_mod_cast Nat.pos_iff_ne_zero.mp hlen
    have havg : ((labelDistribution d).length : ℝ) * (k : ℝ)
        / ((labelDistribution d).length : ℝ) = (k : ℝ) := by
      field_simp
    rw [havg]
    exact jensenshannon_self _

/-- imbalance lies between 0 and the square root of log 2. -/
theorem imbalance_bounds (d : DeviceState) :
    0 ≤ imbalance d ∧ imbalance d ≤ Real.sqrt (Real.log 2) := by
  rcases Nat.eq_zero_or_pos d.dataset.length with hz | hpos
  · have h0 : imbalance d = 0 := by simp [imbalance, hz]
    rw [h0]
    exact ⟨le_refl 0, Real.sqrt_nonneg _⟩
  · rw [imbalance_eq d (by omega)]
    have hdist : ∀ x ∈ (labelDistribution d).map (Nat.cast : Nat → ℝ), 0 ≤ x := by
      intro x hx
      obtain ⟨c, _, rfl⟩ := List.mem_map.mp hx
      positivity
    refine ⟨jensenshannon_nonneg _ _, ?_⟩
    apply jensenshannon_le_sqrt_log_two
    · intro x hx
      have hxa := List.eq_of_mem_replicate hx
      rw [hxa]
      apply div_nonneg (List.sum_nonneg hdist)
      positivity
    · exact hdist

/-- C7: imbalance returns exactly 0 on an empty dataset and on a
perfectly uniform label distribution, is bounded between 0 and the
square root of log 2, and is built from the symmetric Jensen-Shannon
distance between the balanced distribution and the label counts. -/
theorem c7_imbalance (d : DeviceState) :
    (d.dataset = [] → imbalance d = 0)
    ∧ ((∃ k, labelDistribution d = List.replicate (labelDistribution d).length k) →
        imbalance d = 0)
    ∧ (0 ≤ imbalance d ∧ imbalance d ≤ Real.sqrt (Real.log 2))
    ∧ (∀ p q : List ℝ, jensenshannon p q = jensenshannon q p) :=
  ⟨fun h => by simp [imbalance, h], imbalance_uniform d, imbalance_bounds d,
   jensenshannon_comm⟩

/-- Device holding exactly one sample of every class. -/
def uniformDeviceC7 : DeviceState :=
  { dummyDevice with dataset := (List.range 10).map (fun i => ⟨i, i⟩) }

/-- C7 witness: imbalance vanishes on a concrete empty device and on a
concrete device with one sample per class. -/
theorem c7_imbalance_witness :
    imbalance dummyDevice = 0 ∧ imbalance uniformDeviceC7 = 0 :=
  ⟨(c7_imbalance dummyDevice).1 rfl,
   (c7_imbalance uniformDeviceC7).2.1 ⟨1, by decide⟩⟩

/-- C10 witness: the staleness computation on the concrete empty
group, extracted from the theorem. -/
theorem c10_staleness_empty_group_witness :
    computeStalenessFactor emptyGroupC10 = none :=
  c10_staleness_empty_group.2
